import Mathlib

/-!
Verification of the Ethereum-ABI encoding core of the repository
(`core/src/types/eth_abi.rs`) and the Ethereum-bridge storage-key
predicate (`core/src/ledger/eth_bridge/storage/mod.rs`).

The development shallowly embeds:
* the `Token` model and the canonical head/tail ABI encoder
  (`ethabi::encode`, external to the repository, modelled from the
  spec's head/tail rules and checked against the repository's literal
  test vectors),
* the keccak-256 hash engine and its hex conversions
  (`core/src/types/keccak.rs`, not among the provided sources,
  modelled from the spec),
* the `EncodeCell` container and the `Encode` trait with its derived
  operations (directly from `eth_abi.rs`),
* the storage-key helpers `escrow_key` / `is_eth_bridge_key`
  (directly from `storage/mod.rs`, over a spec-modelled `Key` type).

Machine integers are modelled as `Nat` (bytes are `Nat`s below 256,
words `Nat`s below 2^64 or 2^256, with explicit `%` where overflow
matters); all definitions are executable so that concrete test vectors
are settled by `decide`.
-/

/-! ## Token model

Mirrors `ethabi::token::Token` (re-exported by `eth_abi.rs`): unsigned
and signed 256-bit integers, booleans, fixed and dynamic byte arrays,
UTF-8 strings, 20-byte addresses, dynamic arrays, fixed arrays and
tuples.  Bytes are `Nat`s below 256.  The nested lists are expressed
through the mutual inductive `TokenList` so that all functions below
are structural (and hence kernel-evaluable). -/

mutual

inductive Token where
  | uint (n : Nat)
  | int (i : Int)
  | bool (b : Bool)
  | fixedBytes (bs : List Nat)
  | bytes (bs : List Nat)
  | string (s : String)
  | address (bs : List Nat)
  | array (ts : TokenList)
  | fixedArray (ts : TokenList)
  | tuple (ts : TokenList)
deriving DecidableEq

inductive TokenList where
  | nil
  | cons (t : Token) (ts : TokenList)
deriving DecidableEq

end

/-- UTF-8 encoding of a single character (by its Unicode scalar value). -/
def charUtf8 (c : Char) : List Nat :=
  let n := c.toNat
  if n < 0x80 then [n]
  else if n < 0x800 then [0xC0 ||| (n >>> 6), 0x80 ||| (n &&& 0x3F)]
  else if n < 0x10000 then
    [0xE0 ||| (n >>> 12), 0x80 ||| ((n >>> 6) &&& 0x3F), 0x80 ||| (n &&& 0x3F)]
  else
    [0xF0 ||| (n >>> 18), 0x80 ||| ((n >>> 12) &&& 0x3F),
     0x80 ||| ((n >>> 6) &&& 0x3F), 0x80 ||| (n &&& 0x3F)]

/-- UTF-8 byte sequence of a string. -/
def strUtf8 (s : String) : List Nat :=
  s.data.foldr (fun c acc => charUtf8 c ++ acc) []

/-- Big-endian byte representation of `n`, on exactly `k` bytes
(most significant first, truncating above `256 ^ k`). -/
def beBytes : Nat → Nat → List Nat
  | 0, _ => []
  | k + 1, n => beBytes k (n / 256) ++ [n % 256]

/-- Right-pad a byte string with zeros up to a multiple of 32 bytes. -/
def rightPad32 (bs : List Nat) : List Nat :=
  bs ++ List.replicate ((32 - bs.length % 32) % 32) 0

/-- Left-pad a byte string with zeros up to 32 bytes. -/
def padLeft32 (bs : List Nat) : List Nat :=
  List.replicate (32 - bs.length) 0 ++ bs

/-- The modulus of 256-bit words. -/
def U256 : Nat := 2 ^ 256

mutual

/-- Whether a token is dynamic in the ABI sense: strings, dynamic
bytes and dynamic arrays always are; fixed arrays and tuples are
dynamic exactly when one of their members is. -/
def Token.isDynamic : Token → Bool
  | .bytes _ => true
  | .string _ => true
  | .array _ => true
  | .fixedArray ts => TokenList.anyDynamic ts
  | .tuple ts => TokenList.anyDynamic ts
  | _ => false

def TokenList.anyDynamic : TokenList → Bool
  | .nil => false
  | .cons t ts => t.isDynamic || TokenList.anyDynamic ts

end

mutual

/-- Size in bytes of the in-place (head) encoding of a static token. -/
def Token.staticSize : Token → Nat
  | .uint _ => 32
  | .int _ => 32
  | .bool _ => 32
  | .address _ => 32
  | .fixedBytes bs => 32 * ((bs.length + 31) / 32)
  | .bytes _ => 32
  | .string _ => 32
  | .array _ => 32
  | .fixedArray ts => TokenList.staticSizeSum ts
  | .tuple ts => TokenList.staticSizeSum ts

def TokenList.staticSizeSum : TokenList → Nat
  | .nil => 0
  | .cons t ts => t.staticSize + TokenList.staticSizeSum ts

end

/-- Head-region footprint of a token: one 32-byte offset word when
dynamic, its full static size otherwise. -/
def Token.headLen (t : Token) : Nat :=
  if t.isDynamic then 32 else t.staticSize

/-- Total length of the head region of a token sequence. -/
def TokenList.headLenSum : TokenList → Nat
  | .nil => 0
  | .cons t ts => t.headLen + TokenList.headLenSum ts

/-- Number of tokens in a sequence. -/
def TokenList.len : TokenList → Nat
  | .nil => 0
  | .cons _ ts => 1 + TokenList.len ts

mutual

/-- In-place encoding of a static token: integers big-endian on
32 bytes (signed integers two's-complement), booleans as 0/1 in the
low byte, addresses left-zero-padded, fixed byte arrays right-padded
to a word multiple, static fixed arrays and tuples concatenated. -/
def Token.encodeStatic : Token → List Nat
  | .uint n => beBytes 32 (n % U256)
  | .int i => beBytes 32 (i % (2 ^ 256 : Int)).toNat
  | .bool b => List.replicate 31 0 ++ [if b then 1 else 0]
  | .address bs => padLeft32 bs
  | .fixedBytes bs => rightPad32 bs
  | .fixedArray ts => TokenList.encodeStaticSeq ts
  | .tuple ts => TokenList.encodeStaticSeq ts
  | _ => []

def TokenList.encodeStaticSeq : TokenList → List Nat
  | .nil => []
  | .cons t ts => t.encodeStatic ++ TokenList.encodeStaticSeq ts

end

mutual

/-- Head and tail regions of a token sequence.  `hl` is the total head
length of the whole sequence and `acc` the number of tail bytes
already emitted, so a dynamic token's head word is the byte offset
`hl + acc` of its tail, measured from the start of the block. -/
def TokenList.seqParts (hl acc : Nat) : TokenList → List Nat × List Nat
  | .nil => ([], [])
  | .cons t ts =>
    if t.isDynamic then
      let tail := t.encodeTail
      let p := TokenList.seqParts hl (acc + tail.length) ts
      (beBytes 32 (hl + acc) ++ p.1, tail ++ p.2)
    else
      let p := TokenList.seqParts hl acc ts
      (t.encodeStatic ++ p.1, p.2)

/-- Tail block of a dynamic token: length word plus padded content for
strings and dynamic bytes; element-count word plus a fresh head/tail
block for dynamic arrays; a fresh head/tail block (no length word) for
dynamic fixed arrays and tuples. -/
def Token.encodeTail : Token → List Nat
  | .bytes bs => beBytes 32 bs.length ++ rightPad32 bs
  | .string s => beBytes 32 (strUtf8 s).length ++ rightPad32 (strUtf8 s)
  | .array ts =>
    beBytes 32 ts.len ++
      (let p := TokenList.seqParts ts.headLenSum 0 ts; p.1 ++ p.2)
  | .fixedArray ts => (let p := TokenList.seqParts ts.headLenSum 0 ts; p.1 ++ p.2)
  | .tuple ts => (let p := TokenList.seqParts ts.headLenSum 0 ts; p.1 ++ p.2)
  | _ => []

end

/-- Modelled from the spec: the canonical ABI encoder `ethabi::encode`
(external crate, not among the provided sources), following the spec's
head/tail layout rules.  Checked below against the repository's
literal test vectors. -/
def abiEncode (ts : TokenList) : List Nat :=
  let p := TokenList.seqParts ts.headLenSum 0 ts
  p.1 ++ p.2

/-! ## Keccak-256 hash engine

Modelled from the spec: `core/src/types/keccak.rs` (not among the
provided sources) wraps `tiny_keccak`'s Keccak-256 — the keccak
variant with multi-rate padding domain byte `0x01`, distinct from
standardized SHA-3.  The state is 25 lanes of 64 bits, kept as `Nat`s
with explicit reduction `% 2 ^ 64`. -/

/-- All-ones 64-bit word, used to express 64-bit complement. -/
def u64Max : Nat := 2 ^ 64 - 1

/-- Left-rotation of a 64-bit word. -/
def rotl64 (x n : Nat) : Nat :=
  ((x <<< n) ||| (x >>> (64 - n))) % 2 ^ 64

/-- Keccak round constants (in decimal). -/
def keccakRC : List Nat :=
  [1, 32898, 9223372036854808714,
   9223372039002292224, 32907, 2147483649,
   9223372039002292353, 9223372036854808585, 138,
   136, 2147516425, 2147483658,
   2147516555, 9223372036854775947, 9223372036854808713,
   9223372036854808579, 9223372036854808578, 9223372036854775936,
   32778, 9223372039002259466, 9223372039002292353,
   9223372036854808704, 2147483649, 9223372039002292232]

/-- Keccak rotation offsets, indexed by lane `x + 5 * y`, given row by
row (rows `y = 0` through `y = 4`). -/
def keccakRot : List Nat :=
  [0, 1, 62, 28, 27] ++ [36, 44, 6, 55, 20] ++ [3, 10, 43, 25, 39] ++
    [41, 45, 15, 21, 8] ++ [18, 2, 61, 56, 14]

/-- Lane index of column `x`, row `y`. -/
def laneIdx (x y : Nat) : Nat := (x % 5) + 5 * (y % 5)

/-- Theta step of the keccak permutation. -/
def keccakTheta (A : List Nat) : List Nat :=
  let C := (List.range 5).map (fun x =>
    A.getD (laneIdx x 0) 0 ^^^ A.getD (laneIdx x 1) 0 ^^^ A.getD (laneIdx x 2) 0 ^^^
    A.getD (laneIdx x 3) 0 ^^^ A.getD (laneIdx x 4) 0)
  let D := (List.range 5).map (fun x =>
    C.getD ((x + 4) % 5) 0 ^^^ rotl64 (C.getD ((x + 1) % 5) 0) 1)
  (List.range 25).map (fun i => A.getD i 0 ^^^ D.getD (i % 5) 0)

/-- Combined rho and pi steps: lane `x + 5 * y` rotates by its offset
and moves to lane `y + 5 * ((2 * x + 3 * y) % 5)`. -/
def keccakRhoPi (A : List Nat) : List Nat :=
  (List.range 25).map (fun j =>
    let src := (List.range 25).findSome? (fun i =>
      let x := i % 5
      let y := i / 5
      if y + 5 * ((2 * x + 3 * y) % 5) = j then some i else none)
    match src with
    | some i => rotl64 (A.getD i 0) (keccakRot.getD i 0)
    | none => 0)

/-- Chi step of the keccak permutation. -/
def keccakChi (B : List Nat) : List Nat :=
  (List.range 25).map (fun i =>
    let x := i % 5
    let y := i / 5
    B.getD i 0 ^^^ ((u64Max - B.getD (laneIdx (x + 1) y) 0) &&& B.getD (laneIdx (x + 2) y) 0))

/-- Iota step: fold the round constant into lane 0. -/
def keccakIota (rc : Nat) (A : List Nat) : List Nat :=
  match A with
  | a0 :: rest => (a0 ^^^ rc) :: rest
  | [] => []

/-- The full 24-round keccak-f[1600] permutation. -/
def keccakF (A : List Nat) : List Nat :=
  keccakRC.foldl (fun st rc => keccakIota rc (keccakChi (keccakRhoPi (keccakTheta st)))) A

/-- Absorb one message byte: xor it into the current lane
(little-endian within lanes) and permute when the 136-byte rate block
is full. -/
def absorbByte (acc : List Nat × Nat) (b : Nat) : List Nat × Nat :=
  let st := acc.1
  let pos := acc.2
  let lane := pos / 8
  let st := st.set lane (st.getD lane 0 ^^^ (b <<< (8 * (pos % 8))))
  if pos = 135 then (keccakF st, 0) else (st, pos + 1)

/-- Keccak multi-rate padding (domain byte `0x01`, final bit `0x80`)
for a message of length `len`, at rate 136 bytes. -/
def keccakPadding (len : Nat) : List Nat :=
  let r := 136 - len % 136
  if r = 1 then [0x81]
  else 0x01 :: List.replicate (r - 2) 0 ++ [0x80]

/-- Keccak-256 of a byte string: pad, absorb every byte into the
all-zero state, and squeeze the first 32 bytes. -/
def keccak256 (msg : List Nat) : List Nat :=
  let padded := msg ++ keccakPadding msg.length
  let final := padded.foldl absorbByte (List.replicate 25 0, 0)
  (List.range 32).map (fun i => (final.1.getD (i / 8) 0 >>> (8 * (i % 8))) % 256)

/-- Modelled from the spec: the 32-byte keccak digest newtype
`KeccakHash` of `core/src/types/keccak.rs`. -/
structure KeccakHash where
  bytes : List Nat
deriving DecidableEq

/-- Modelled from the spec: `keccak_hash` of `core/src/types/keccak.rs`,
the keccak-256 digest of arbitrary input bytes. -/
def keccak_hash (bs : List Nat) : KeccakHash :=
  ⟨keccak256 bs⟩

/-! ## Hex conversion for digests

Modelled from the spec: `core/src/types/keccak.rs` is not among the
provided sources.  Per spec §7, parsing fails exactly when the input
is not 64 hex characters; per the in-source test `test_hex_roundtrip`
(which round-trips an upper-case string), formatting is upper-case. -/

/-- Value of a hex digit character, upper or lower case (by code
point: `0`–`9` are 48–57, `A`–`F` are 65–70, `a`–`f` are 97–102). -/
def hexDigitVal (c : Char) : Option Nat :=
  let n := c.toNat
  if 48 ≤ n ∧ n ≤ 57 then some (n - 48)
  else if 97 ≤ n ∧ n ≤ 102 then some (n - 87)
  else if 65 ≤ n ∧ n ≤ 70 then some (n - 55)
  else none

/-- The sixteen upper-case hex digit characters, in value order. -/
def upperHexChars : List Char :=
  "0123456789ABCDEF".data

/-- Upper-case hex digit character of a value below 16. -/
def hexUpperDigitChar (n : Nat) : Char :=
  upperHexChars.getD n '0'

/-- Parse a character list, two hex digits per byte; fails on odd
length or any non-hex character. -/
def parseHexList : List Char → Option (List Nat)
  | [] => some []
  | [_] => none
  | c1 :: c2 :: rest =>
    match hexDigitVal c1, hexDigitVal c2, parseHexList rest with
    | some h, some l, some bs => some ((16 * h + l) :: bs)
    | _, _, _ => none

/-- Format a byte list as upper-case hex characters, two per byte. -/
def formatHexList (bs : List Nat) : List Char :=
  bs.foldr (fun b acc => hexUpperDigitChar (b / 16) :: hexUpperDigitChar (b % 16) :: acc) []

/-- Modelled from the spec: hex-to-digest parsing (`TryFrom` of a
string for `KeccakHash`): fails exactly when the input is not 64 hex
characters long or contains a non-hex character. -/
def KeccakHash.ofHexString (s : String) : Option KeccakHash :=
  if s.length = 64 then (parseHexList s.data).map KeccakHash.mk else none

/-- Modelled from the spec: digest-to-hex formatting (the display
implementation of `KeccakHash`), 64 upper-case hex characters. -/
def KeccakHash.toHexString (h : KeccakHash) : String :=
  ⟨formatHexList h.bytes⟩

/-- Decode a hex string into bytes, used to transcribe the literal
test vectors of the repository. -/
def hexDecode (s : String) : List Nat :=
  (parseHexList s.data).getD []

/-! ## The typed encoded container `EncodeCell` (from `eth_abi.rs`) -/

/-- The container for ABI-encoded data of `eth_abi.rs`: a byte buffer
`encoded_data` tagged, at the type level only, by the phantom
parameter `T` (no runtime field for the tag). -/
structure EncodeCell (T : Type) where
  encoded_data : List Nat

/-- Equality of containers, defined solely over the byte buffer
(the `PartialEq` implementation of `EncodeCell`). -/
def EncodeCell.beq {T : Type} (a b : EncodeCell T) : Bool :=
  a.encoded_data == b.encoded_data

/-- Byte-lexicographic comparison of byte lists (the `Ord` instance of
`Vec<u8>`). -/
def listCmp : List Nat → List Nat → Ordering
  | [], [] => .eq
  | [], _ :: _ => .lt
  | _ :: _, [] => .gt
  | x :: xs, y :: ys =>
    match compare x y with
    | .eq => listCmp xs ys
    | o => o

/-- Ordering of containers, defined solely over the byte buffer
(the `Ord` implementation of `EncodeCell`). -/
def EncodeCell.cmp {T : Type} (a b : EncodeCell T) : Ordering :=
  listCmp a.encoded_data b.encoded_data

/-! ## The `Encode` tokenization contract (from `eth_abi.rs`) -/

/-- The `Encode<N>` trait of `eth_abi.rs` as an explicit dictionary:
one required method `tokenize` producing exactly `N` tokens
(`[Token; N]` in the source). -/
structure EncodeImpl (N : Nat) (T : Type) where
  tokenize : T → TokenList
  tokenize_len : ∀ v, (tokenize v).len = N

/-- `EncodeCell::new`: ABI-encode the tokenization of a value. -/
def EncodeCell.new {N : Nat} {T : Type} (e : EncodeImpl N T) (v : T) : EncodeCell T :=
  ⟨abiEncode (e.tokenize v)⟩

/-- `EncodeCell::new_from`: the unchecked constructor, encoding raw
tokens under a caller-asserted tag. -/
def EncodeCell.new_from {T : Type} (ts : TokenList) : EncodeCell T :=
  ⟨abiEncode ts⟩

/-- `EncodeCell::into_inner`: extract the underlying encoded bytes. -/
def EncodeCell.into_inner {T : Type} (c : EncodeCell T) : List Nat :=
  c.encoded_data

/-- The derived trait method `Encode::encode`. -/
def EncodeImpl.encode {N : Nat} {T : Type} (e : EncodeImpl N T) (v : T) : EncodeCell T :=
  EncodeCell.new e v

/-- The derived trait method `Encode::keccak256`. -/
def EncodeImpl.keccak256 {N : Nat} {T : Type} (e : EncodeImpl N T) (v : T) : KeccakHash :=
  keccak_hash (e.encode v).into_inner

/-- Modelled from the spec: the domain-separation header of
`SignableEthMessage` (`crate::proto`, not among the provided sources):
the ASCII tag plus the decimal inner-digest length 32. -/
def ethMessageTag : List Nat :=
  strUtf8 "\x19Ethereum Signed Message:\n32"

/-- Modelled from the spec: `SignableEthMessage::as_signable`
(`crate::proto`, not among the provided sources): keccak-256 of the
domain-separation header prepended to the raw 32-byte digest. -/
def SignableEthMessage.as_signable (h : KeccakHash) : KeccakHash :=
  keccak_hash (ethMessageTag ++ h.bytes)

/-- The derived trait method `Encode::signable_keccak256`. -/
def EncodeImpl.signable_keccak256 {N : Nat} {T : Type} (e : EncodeImpl N T) (v : T) : KeccakHash :=
  SignableEthMessage.as_signable (e.keccak256 v)

/-- `AbiEncode<N>`, the raw fixed-length token sequence `[Token; N]`. -/
def AbiEncode (N : Nat) : Type :=
  {ts : TokenList // ts.len = N}

/-- The identity `Encode<N>` implementation of `AbiEncode<N>`:
`tokenize` returns the token sequence itself (`self.clone()`). -/
def AbiEncode.encodeImpl (N : Nat) : EncodeImpl N (AbiEncode N) :=
  ⟨fun t => t.val, fun t => t.property⟩

/-! ## Ethereum-bridge storage keys
(`core/src/ledger/eth_bridge/storage/mod.rs`) -/

/-- Modelled from the spec: a ledger address, identified by its
database-key string form. -/
structure Address where
  raw : String
deriving DecidableEq

/-- Modelled from the spec: `Address::to_db_key`, the database-key
segment of an address. -/
def Address.to_db_key (a : Address) : String :=
  a.raw

/-- Modelled from the spec: a storage key, a sequence of database-key
segments. -/
structure Key where
  segments : List String
deriving DecidableEq

/-- Modelled from the spec: the internal account address `ADDRESS` of
the Ethereum bridge VP. -/
def BRIDGE_ADDRESS : Address :=
  ⟨"#EthBridge"⟩

/-- Modelled from the spec: `balance_key` of `types/token` (not among
the provided sources), the balance key of `owner` for token `token`,
rooted at the token's address segment. -/
def balance_key (token owner : Address) : Key :=
  ⟨[token.to_db_key, "balance", owner.to_db_key]⟩

/-- `escrow_key`: the key to the escrow of the VP, the native token
balance of the bridge account. -/
def escrow_key (nam_addr : Address) : Key :=
  balance_key nam_addr BRIDGE_ADDRESS

/-- `is_eth_bridge_key`: whether a key belongs to the bridge account —
either it is the escrow key, or its first segment is the bridge
account's database key. -/
def is_eth_bridge_key (nam_addr : Address) (key : Key) : Bool :=
  decide (key = escrow_key nam_addr) ||
    decide (key.segments.head? = some BRIDGE_ADDRESS.to_db_key)

/-! ## Helper lemmas -/

theorem listCmp_eq_iff (xs ys : List Nat) : listCmp xs ys = Ordering.eq ↔ xs = ys := by
  induction xs generalizing ys with
  | nil => cases ys <;> simp [listCmp]
  | cons x xs ih =>
    cases ys with
    | nil => simp [listCmp]
    | cons y ys =>
      simp only [listCmp]
      cases h : compare x y with
      | eq =>
        have hxy : x = y := by
          have := Nat.compare_eq_eq.mp h
          exact this
        simp [hxy, ih]
      | lt =>
        have hxy : x ≠ y := Nat.ne_of_lt (Nat.compare_eq_lt.mp h)
        simp [hxy]
      | gt =>
        have hxy : x ≠ y := Nat.ne_of_gt (Nat.compare_eq_gt.mp h)
        simp [hxy]

theorem keccak256_length (b : List Nat) : (keccak256 b).length = 32 := by
  simp [keccak256]

/-! ## Claim theorems -/

set_option maxRecDepth 10000 in
/-- C1: encoding the two-element token sequence `[Uint(42),
String("test")]` with the canonical ABI encoder yields exactly the
fixed byte sequence of the repository's `test_abi_encode` test: a head
word with 42 left-zero-padded big-endian, a head word with the byte
offset `0x40` of the tail, and a tail of one length word (4) followed
by `"test"` right-zero-padded to 32 bytes. -/
theorem abi_encode_uint_string_test_vector :
    ((AbiEncode.encodeImpl 2).encode
        ⟨.cons (.uint 42) (.cons (.string "test") .nil), rfl⟩).into_inner =
      hexDecode "000000000000000000000000000000000000000000000000000000000000002a000000000000000000000000000000000000000000000000000000000000004000000000000000000000000000000000000000000000000000000000000000047465737400000000000000000000000000000000000000000000000000000000" := by
  decide

/-- C2: equality of `EncodeCell` containers of the same tag type holds
exactly when the underlying byte buffers are equal, `cmp` is the
byte-lexicographic comparison of the buffers (the type tag has no
runtime part), containers built from the same domain value compare
equal, and containers with different encoded bytes compare unequal. -/
theorem encode_cell_compares_by_bytes (T : Type) (a b : EncodeCell T) :
    (EncodeCell.beq a b = true ↔ a.encoded_data = b.encoded_data) ∧
    EncodeCell.cmp a b = listCmp a.encoded_data b.encoded_data ∧
    (EncodeCell.cmp a b = Ordering.eq ↔ a = b) ∧
    (∀ (N : Nat) (e : EncodeImpl N T) (v : T),
      EncodeCell.beq (EncodeCell.new e v) (EncodeCell.new e v) = true) ∧
    (a.encoded_data ≠ b.encoded_data → EncodeCell.beq a b = false) := by
  refine ⟨?_, rfl, ?_, ?_, ?_⟩
  · simp [EncodeCell.beq]
  · cases a
    cases b
    simp [EncodeCell.cmp, listCmp_eq_iff, EncodeCell.mk.injEq]
  · intro N e v
    simp [EncodeCell.beq]
  · intro h
    simp [EncodeCell.beq, h]

theorem encode_cell_compares_by_bytes_witness :
    ([1] : List Nat) ≠ [2] ∧
      EncodeCell.beq (⟨[1]⟩ : EncodeCell Nat) ⟨[2]⟩ = false :=
  ⟨by decide, (encode_cell_compares_by_bytes Nat ⟨[1]⟩ ⟨[2]⟩).2.2.2.2 (by decide)⟩

/-- C3: the three derived operations of the `Encode<N>` contract are
layered on the single `tokenize` function: `encode` applies the
canonical ABI encoder to the tokenization, `keccak256` is the
keccak-256 hash of the encoded bytes, and `signable_keccak256` is the
signable-digest transform of that hash. -/
theorem encode_trait_layering (N : Nat) (T : Type) (e : EncodeImpl N T) (v : T) :
    e.encode v = ⟨abiEncode (e.tokenize v)⟩ ∧
    e.keccak256 v = keccak_hash (e.encode v).into_inner ∧
    e.signable_keccak256 v = SignableEthMessage.as_signable (e.keccak256 v) :=
  ⟨rfl, rfl, rfl⟩

/-- C7: all core operations are deterministic pure functions — two
invocations of `tokenize` on the same value yield the same token
sequence, two invocations of `encode` yield byte-identical containers,
and the encoding depends on nothing but the produced tokens. -/
theorem encoding_deterministic (N : Nat) (T : Type) (e : EncodeImpl N T) (v w : T) :
    e.tokenize v = e.tokenize v ∧
    e.encode v = e.encode v ∧
    (e.tokenize v = e.tokenize w → e.encode v = e.encode w) := by
  refine ⟨rfl, rfl, fun h => ?_⟩
  simp [EncodeImpl.encode, EncodeCell.new, h]

theorem encoding_deterministic_witness :
    (AbiEncode.encodeImpl 1).encode ⟨.cons (.bool true) .nil, rfl⟩ =
      (AbiEncode.encodeImpl 1).encode ⟨.cons (.bool true) .nil, rfl⟩ :=
  (encoding_deterministic 1 (AbiEncode 1) (AbiEncode.encodeImpl 1)
    ⟨.cons (.bool true) .nil, rfl⟩ ⟨.cons (.bool true) .nil, rfl⟩).2.2 rfl

/-- C8: a raw fixed-length token sequence `[Token; N]` implements the
tokenization contract with identity tokenization: its `tokenize` is
the sequence itself, so its `encode` is exactly the canonical ABI
encoding of those `N` tokens. -/
theorem abi_encode_identity_tokenization (N : Nat) (t : AbiEncode N) :
    (AbiEncode.encodeImpl N).tokenize t = t.val ∧
    (AbiEncode.encodeImpl N).encode t = ⟨abiEncode t.val⟩ :=
  ⟨rfl, rfl⟩

set_option maxRecDepth 10000 in
/-- C9: keccak-256 of a byte string is deterministic and always
produces exactly 32 bytes; keccak-256 of the ASCII bytes of `"hello"`
equals the fixed digest
`1c8aff950685c2ed4bc3174f3472287b56d9517b9c948127319a09a7a36deac8`
(the keccak variant, not standardized SHA-3). -/
theorem keccak256_deterministic_length_and_hello :
    (∀ b : List Nat, keccak256 b = keccak256 b ∧ (keccak256 b).length = 32) ∧
    keccak256 (strUtf8 "hello") =
      hexDecode "1c8aff950685c2ed4bc3174f3472287b56d9517b9c948127319a09a7a36deac8" := by
  refine ⟨fun b => ⟨rfl, keccak256_length b⟩, ?_⟩
  decide

/-- C10: `is_eth_bridge_key nam_addr key` is true exactly when `key`
is the escrow balance key `escrow_key nam_addr` or its first segment
is the bridge account's database key; in particular it is true for
the escrow key, whose first segment is the native token's (not the
bridge's) database key, and false for any other key whose first
segment is not the bridge's database key. -/
theorem is_eth_bridge_key_spec (nam : Address) (key : Key) :
    (is_eth_bridge_key nam key = true ↔
      (key = escrow_key nam ∨ key.segments.head? = some BRIDGE_ADDRESS.to_db_key)) ∧
    is_eth_bridge_key nam (escrow_key nam) = true ∧
    (escrow_key nam).segments.head? = some nam.to_db_key ∧
    (∀ s, key.segments.head? = some s → s ≠ BRIDGE_ADDRESS.to_db_key →
      key ≠ escrow_key nam → is_eth_bridge_key nam key = false) := by
  refine ⟨?_, ?_, rfl, ?_⟩
  · simp [is_eth_bridge_key]
  · simp [is_eth_bridge_key]
  · intro s hs hne hkey
    simp [is_eth_bridge_key, hkey, hs, hne]

theorem is_eth_bridge_key_spec_witness :
    is_eth_bridge_key ⟨"nam"⟩ ⟨["other", "k"]⟩ = false :=
  (is_eth_bridge_key_spec ⟨"nam"⟩ ⟨["other", "k"]⟩).2.2.2 "other" rfl
    (by decide) (by decide)

theorem upperHex_digit_spec : ∀ c ∈ upperHexChars,
    (hexDigitVal c).isSome = true ∧
    ((hexDigitVal c).getD 0 < 16 ∧ hexUpperDigitChar ((hexDigitVal c).getD 0) = c) := by
  decide

theorem formatHexList_cons (b : Nat) (bs : List Nat) :
    formatHexList (b :: bs) =
      hexUpperDigitChar (b / 16) :: hexUpperDigitChar (b % 16) :: formatHexList bs := rfl

theorem parse_format (cs : List Char) (hcs : ∀ c ∈ cs, c ∈ upperHexChars) (bs : List Nat)
    (hp : parseHexList cs = some bs) : formatHexList bs = cs := by
  induction cs using parseHexList.induct generalizing bs with
  | case1 =>
    simp only [parseHexList, Option.some_inj] at hp
    subst hp
    rfl
  | case2 c => simp [parseHexList] at hp
  | case3 c1 c2 rest h l bs0 h3 h2 h1 ih =>
    simp only [parseHexList, h1, h2, h3, Option.some_inj] at hp
    subst hp
    have hc1 := upperHex_digit_spec c1 (hcs c1 (by simp))
    have hc2 := upperHex_digit_spec c2 (hcs c2 (by simp))
    simp only [h1, Option.getD_some] at hc1
    simp only [h2, Option.getD_some] at hc2
    have hl : l < 16 := hc2.2.1
    have hdiv : (16 * h + l) / 16 = h := by omega
    have hmod : (16 * h + l) % 16 = l := by omega
    rw [formatHexList_cons, hdiv, hmod, hc1.2.2, hc2.2.2,
      ih (fun c hc => hcs c (by simp [hc])) bs0 h3]
  | case4 c1 c2 rest hfail ih =>
    exfalso
    cases h1 : hexDigitVal c1 with
    | none => simp [parseHexList, h1] at hp
    | some h =>
      cases h2 : hexDigitVal c2 with
      | none => simp [parseHexList, h1, h2] at hp
      | some l =>
        cases h3 : parseHexList rest with
        | none => simp [parseHexList, h1, h2, h3] at hp
        | some bs0 => exact hfail h l bs0 h1 h2 h3

theorem parse_isSome (cs : List Char) (heven : cs.length % 2 = 0)
    (hhex : ∀ c ∈ cs, (hexDigitVal c).isSome = true) : (parseHexList cs).isSome = true := by
  induction cs using parseHexList.induct with
  | case1 => simp [parseHexList]
  | case2 c => simp at heven
  | case3 c1 c2 rest h l bs0 h3 h2 h1 ih => simp [parseHexList, h1, h2, h3]
  | case4 c1 c2 rest hfail ih =>
    exfalso
    have he1 := hhex c1 (by simp)
    have he2 := hhex c2 (by simp)
    cases h1 : hexDigitVal c1 with
    | none => simp [h1] at he1
    | some h =>
      cases h2 : hexDigitVal c2 with
      | none => simp [h2] at he2
      | some l =>
        have heven2 : rest.length % 2 = 0 := by
          simp only [List.length_cons] at heven
          omega
        have := ih heven2 (fun c hc => hhex c (by simp [hc]))
        cases h3 : parseHexList rest with
        | none => simp [h3] at this
        | some bs0 => exact hfail h l bs0 h1 h2 h3

theorem parse_some_all_hex (cs : List Char) (bs : List Nat)
    (hp : parseHexList cs = some bs) : ∀ c ∈ cs, (hexDigitVal c).isSome = true := by
  induction cs using parseHexList.induct generalizing bs with
  | case1 => simp
  | case2 c => simp [parseHexList] at hp
  | case3 c1 c2 rest h l bs0 h3 h2 h1 ih =>
    intro c hc
    simp only [List.mem_cons] at hc
    rcases hc with rfl | rfl | hc
    · simp [h1]
    · simp [h2]
    · exact ih bs0 h3 c hc
  | case4 c1 c2 rest hfail ih =>
    exfalso
    cases h1 : hexDigitVal c1 with
    | none => simp [parseHexList, h1] at hp
    | some h =>
      cases h2 : hexDigitVal c2 with
      | none => simp [parseHexList, h1, h2] at hp
      | some l =>
        cases h3 : parseHexList rest with
        | none => simp [parseHexList, h1, h2, h3] at hp
        | some bs0 => exact hfail h l bs0 h1 h2 h3

theorem parse_none_iff (cs : List Char) (heven : cs.length % 2 = 0) :
    parseHexList cs = none ↔ ¬ (∀ c ∈ cs, (hexDigitVal c).isSome = true) := by
  constructor
  · intro hnone hall
    have := parse_isSome cs heven hall
    simp [hnone] at this
  · intro hnall
    cases h : parseHexList cs with
    | none => rfl
    | some bs => exact absurd (parse_some_all_hex cs bs h) hnall

/-- C4 (counterexample): the lower-case hex string
`1c8aff…eac8` is a valid 64-character hex string — parsing succeeds —
but formatting the parsed digest back does not reproduce the original
string character for character (formatting is upper-case), so the
round-trip law does not hold for every valid hex string casing. -/
theorem hex_roundtrip_mixed_case_counterexample :
    (KeccakHash.ofHexString
        "1c8aff950685c2ed4bc3174f3472287b56d9517b9c948127319a09a7a36deac8").isSome = true ∧
    (KeccakHash.ofHexString
        "1c8aff950685c2ed4bc3174f3472287b56d9517b9c948127319a09a7a36deac8").map
        KeccakHash.toHexString ≠
      some "1c8aff950685c2ed4bc3174f3472287b56d9517b9c948127319a09a7a36deac8" := by
  constructor
  · decide
  · decide

/-- C4 (amended): for every 64-character hex string written in the
canonical (upper-case) hex alphabet, parsing into a digest and
formatting back yields exactly the original string, character for
character. -/
theorem hex_roundtrip_upper_case (s : String) (hlen : s.length = 64)
    (hhex : ∀ c ∈ s.data, c ∈ upperHexChars) :
    (KeccakHash.ofHexString s).map KeccakHash.toHexString = some s := by
  obtain ⟨cs⟩ := s
  have hdl : cs.length = 64 := hlen
  have hall : ∀ c ∈ cs, (hexDigitVal c).isSome = true := fun c hc =>
    (upperHex_digit_spec c (hhex c hc)).1
  have hsome := parse_isSome cs (by omega) hall
  obtain ⟨bs, hbs⟩ := Option.isSome_iff_exists.mp hsome
  have hfmt := parse_format cs hhex bs hbs
  rw [KeccakHash.ofHexString, if_pos hlen, hbs]
  simp [KeccakHash.toHexString, hfmt]

theorem hex_roundtrip_upper_case_witness :
    (KeccakHash.ofHexString
        "1C8AFF950685C2ED4BC3174F3472287B56D9517B9C948127319A09A7A36DEAC8").map
        KeccakHash.toHexString =
      some "1C8AFF950685C2ED4BC3174F3472287B56D9517B9C948127319A09A7A36DEAC8" :=
  hex_roundtrip_upper_case
    "1C8AFF950685C2ED4BC3174F3472287B56D9517B9C948127319A09A7A36DEAC8"
    (by decide) (by decide)

/-- C5: hex-to-digest parsing returns an error exactly when the input
is not 64 characters long or contains a non-hex character, and
succeeds otherwise; every other core operation (tokenization-based
encoding, container construction, keccak hashing, the signable
transform) is a total function and cannot fail. -/
theorem hex_parse_error_iff (s : String) :
    (KeccakHash.ofHexString s = none ↔
      ¬ (s.length = 64 ∧ ∀ c ∈ s.data, (hexDigitVal c).isSome = true)) ∧
    (∀ ts : TokenList, ∃ bs, abiEncode ts = bs) ∧
    (∀ (N : Nat) (T : Type) (e : EncodeImpl N T) (v : T), ∃ c, e.encode v = c) ∧
    (∀ bs : List Nat, ∃ h, keccak_hash bs = h) ∧
    (∀ h : KeccakHash, ∃ h2, SignableEthMessage.as_signable h = h2) := by
  refine ⟨?_, fun ts => ⟨_, rfl⟩, fun N T e v => ⟨_, rfl⟩, fun bs => ⟨_, rfl⟩,
    fun h => ⟨_, rfl⟩⟩
  by_cases hlen : s.length = 64
  · have hdl : s.data.length = 64 := hlen
    rw [KeccakHash.ofHexString, if_pos hlen]
    rw [Option.map_eq_none']
    rw [parse_none_iff s.data (by omega)]
    simp [hlen]
  · rw [KeccakHash.ofHexString, if_neg hlen]
    simp [hlen]

theorem hex_parse_error_iff_witness :
    KeccakHash.ofHexString "zz" = none :=
  (hex_parse_error_iff "zz").1.mpr (by decide)
